import Mathlib

/-!
# userd: operating-system detection and command dispatch

A shallow embedding of `distro.go` (`getOS`, `getOSCommands`) and of `hook.go`
(`hookEvent`, the two hook executors, `getHookExecutor`) together with the properties of
the command tables and of the hooks that the specification states.

Modelling conventions.

* A Go `string` is a Lean `String`, read as its sequence of code points
  (the text is assumed to be valid UTF-8; every separator the program uses is an
  ASCII character, so splitting by bytes and by code points agree).
* A Go function can end in three ways: it returns, it calls `log.Fatal`/`log.Fatalf`
  (the process exits), or it panics at run time (index out of range).  `Outcome`
  records which.
* Running an external process is an interaction with the environment.  The
  environment is a function `Env` that answers a command from the history of the
  commands run so far; the `World` records, in order, every command that was run
  and every line that was logged.
-/

namespace Userd

/-! ## Outcomes of a Go function -/

/-- How a call ends: a normal return, `log.Fatal` (process exit), or a run-time panic. -/
inductive Outcome (α : Type) where
  | ret (a : α)
  | fatal (msg : String)
  | panic
  deriving DecidableEq, Repr

/-- Sequencing: the continuation runs only after a normal return. -/
def Outcome.bind {α β : Type} (o : Outcome α) (k : α → Outcome β) : Outcome β :=
  match o with
  | .ret a => k a
  | .fatal m => .fatal m
  | .panic => .panic

/-! ## The `strings` functions used by the program -/

/-- The rune mapping of `unicode.ToLower`: the ASCII range is shifted in place,
every other rune is looked up in the case table `tbl` of the Go library. -/
def toLowerRune (tbl : Char → Char) (c : Char) : Char :=
  if c.toNat < 128 then
    (if 'A' ≤ c ∧ c ≤ 'Z' then Char.ofNat (c.toNat + 32) else c)
  else tbl c

/-- `strings.ToLower`. -/
def ToLower (tbl : Char → Char) (s : String) : String :=
  ⟨s.data.map (toLowerRune tbl)⟩

/-- `strings.HasPrefix`. -/
def HasPrefix (s pre : String) : Bool :=
  pre.data.isPrefixOf s.data

/-- The pieces of a rune list around every occurrence of `sep`. -/
def splitChars (sep : Char) : List Char → List (List Char)
  | [] => [[]]
  | c :: cs =>
    if c = sep then [] :: splitChars sep cs
    else
      match splitChars sep cs with
      | [] => [[c]]
      | p :: ps => (c :: p) :: ps

/-- `strings.Split(s, sep)` for a one-character separator: every occurrence of the
separator cuts, so the result has one more element than there are separators. -/
def Split (s : String) (sep : Char) : List String :=
  (splitChars sep s.data).map String.mk

/-- `strings.Replace(s, old, new, -1)` for a one-character `old`. -/
def Replace (s : String) (old : Char) (new : String) : String :=
  ⟨s.data.flatMap (fun c => if c = old then new.data else [c])⟩

/-- `unicode.IsSpace`. -/
def isSpace (c : Char) : Bool :=
  let n := c.toNat
  if n ≤ 0xFF then
    n = 0x09 ∨ n = 0x0A ∨ n = 0x0B ∨ n = 0x0C ∨ n = 0x0D ∨ n = 0x20 ∨ n = 0x85 ∨ n = 0xA0
  else
    n = 0x1680 ∨ (0x2000 ≤ n ∧ n ≤ 0x200A) ∨ n = 0x2028 ∨ n = 0x2029 ∨ n = 0x202F
      ∨ n = 0x205F ∨ n = 0x3000

/-- `strings.TrimSpace`: leading and trailing white space removed. -/
def TrimSpace (s : String) : String :=
  ⟨((s.data.dropWhile isSpace).reverse.dropWhile isSpace).reverse⟩

/-! ## `getOS` -/

/-- Go slice indexing `bits[i]`: panics when out of range. -/
def index (bits : List String) (i : Nat) : Outcome String :=
  match bits.get? i with
  | some b => .ret b
  | none => .panic

/-- The body of the line loop of `getOS`, on the pair `(version, version_id)`. -/
def lineStep (line : String) (v : String × String) : Outcome (String × String) :=
  let bits := Split line '='
  if 0 < bits.length then
    (index bits 0).bind fun b0 =>
    (if b0 = "ID" then
        (index bits 1).bind fun b1 => .ret (Replace b1 '"' "", v.2)
      else .ret v).bind fun v1 =>
    (index bits 0).bind fun b0' =>
    (if b0' = "VERSION_ID" then
        (index bits 1).bind fun b1 => .ret (v1.1, Replace b1 '"' "")
      else .ret v1)
  else .ret v

/-- The line loop of `getOS`. -/
def lineLoop : List String → String × String → Outcome (String × String)
  | [], v => .ret v
  | l :: ls, v => (lineStep l v).bind (lineLoop ls)

/-- `getOS`, as a function of the result of reading `/etc/os-release`
(`.error` when the file cannot be read). -/
def getOS (file : Except String String) : Outcome String :=
  match file with
  | .error e => .fatal e
  | .ok b =>
    let s := Split b '\n'
    (lineLoop s ("", "")).bind fun v =>
      if v.1 ≠ "" ∧ v.2 ≠ "" then .ret (v.1 ++ ":" ++ v.2)
      else if v.1 ≠ "" then .ret v.1
      else .ret ""

/-! ## External commands -/

/-- What `CombinedOutput` gives back: the combined output and the error (`none` is `nil`). -/
structure ExecResult where
  out : String
  err : Option String
  deriving DecidableEq, Repr

/-- The observable effects so far: the commands run and the lines logged, oldest first. -/
structure World where
  trace : List (List String)
  logs : List String
  deriving DecidableEq, Repr

/-- The environment: the result of a command, given the commands run before it. -/
abbrev Env := List (List String) → List String → ExecResult

/-- An operation of a command table, once its arguments are given. -/
abbrev Action := Env → World → ExecResult × World

/-- `exec.Command(args[0], args[1:]...).CombinedOutput()`. -/
def CombinedOutput (args : List String) : Action :=
  fun env w => (env w.trace args, { w with trace := w.trace ++ [args] })

/-- `log.Printf`, recording the formatted message. -/
def logPrintf (msg : String) (w : World) : World :=
  { w with logs := w.logs ++ [msg] }

/-- The block that precedes the deletion in each `delUser` (the same text in the three
tables): list the processes of the user and, if any is listed, kill them. -/
def killProcesses (username : String) (env : Env) (w : World) : World :=
  let pgrep := ["pgrep", "-l", "-u", username]
  let r := CombinedOutput pgrep env w
  let processlist := r.1.out
  if TrimSpace processlist ≠ "" then
    let w1 := logPrintf ("Found " ++ username ++ " processes: "
                ++ TrimSpace (Replace processlist '\n' " ")) r.2
    let pkill := ["pkill", "--signal", "9", "-e", "-u", username]
    let k := CombinedOutput pkill env w1
    let out := k.1.out
    if TrimSpace out ≠ "" then
      logPrintf ("Killed " ++ username ++ " processes: "
        ++ TrimSpace (Replace out '\n' " ")) k.2
    else k.2
  else r.2

/-- The record `distroCommands`; a field of function type may be `nil` in Go. -/
structure distroCommands where
  addUser : Option (String → String → Action)
  delUser : Option (String → Action)
  changeShell : Option (String → String → Action)
  changePassword : Option (String → String → Action)
  changeHomeDir : Option (String → String → Action)
  changeGroups : Option (String → String → Action)
  changeComment : Option (String → String → Action)

/-- The table returned for the CentOS 7 keys. -/
def centosCommands : distroCommands where
  addUser := some fun username home =>
    CombinedOutput ["adduser", "-m", "--home-dir", home, username]
  delUser := some fun username => fun env w =>
    let w1 := killProcesses username env w
    CombinedOutput ["userdel", "--remove", "-f", username] env w1
  changeShell := some fun username shell =>
    CombinedOutput ["usermod", "--shell", shell, username]
  changePassword := some fun username password =>
    CombinedOutput ["usermod", "--password", password, username]
  changeHomeDir := some fun username home =>
    CombinedOutput ["usermod", "--move-home", "--home", home, username]
  changeGroups := some fun username groups =>
    CombinedOutput ["usermod", "--groups", groups, username]
  changeComment := some fun username comment =>
    CombinedOutput ["usermod", "--comment", comment, username]

/-- The table returned for the Debian and Ubuntu keys. -/
def debianCommands : distroCommands where
  addUser := some fun username home =>
    CombinedOutput ["adduser", "--home", home, "--disabled-password", username]
  delUser := some fun username => fun env w =>
    let w1 := killProcesses username env w
    CombinedOutput ["deluser", "--remove-home", username] env w1
  changeShell := some fun username shell =>
    CombinedOutput ["usermod", "--shell", shell, username]
  changePassword := some fun username password =>
    CombinedOutput ["usermod", "--password", password, username]
  changeHomeDir := some fun username home =>
    CombinedOutput ["usermod", "--move-home", "--home", home, username]
  changeGroups := some fun username groups =>
    CombinedOutput ["usermod", "--groups", groups, username]
  changeComment := some fun username comment =>
    CombinedOutput ["usermod", "--comment", comment, username]

/-- The table returned for the identities that start with `flatcar`. -/
def flatcarCommands : distroCommands where
  addUser := some fun username home =>
    CombinedOutput ["useradd", "-m", "--home-dir", home, username]
  delUser := some fun username => fun env w =>
    let w1 := killProcesses username env w
    CombinedOutput ["userdel", "--remove", "-f", username] env w1
  changeShell := some fun username shell =>
    CombinedOutput ["usermod", "--shell", shell, username]
  changePassword := some fun username password =>
    CombinedOutput ["usermod", "--password", password, username]
  changeHomeDir := some fun username home =>
    CombinedOutput ["usermod", "--move-home", "--home", home, username]
  changeGroups := some fun username groups =>
    CombinedOutput ["usermod", "--groups", groups, username]
  changeComment := some fun username comment =>
    CombinedOutput ["usermod", "--comment", comment, username]

/-- `getOSCommands`: the exact-match switch, then the prefix switch, whose default
is `log.Fatalf`. -/
def getOSCommands (tbl : Char → Char) (flavour : String) : Outcome distroCommands :=
  let f := ToLower tbl flavour
  if f ∈ ["centos:7", "centos:7.4", "centos:7.5", "centos:7.6"] then
    .ret centosCommands
  else if f ∈ ["debian", "debian:8", "debian:9", "debian:10", "debian:11", "debian:12",
      "ubuntu:16.04", "ubuntu:18.04", "ubuntu:18.10", "ubuntu:19.04"] then
    .ret debianCommands
  else if HasPrefix f "flatcar" || HasPrefix f "flatcar:3510.3" then
    .ret flatcarCommands
  else
    .fatal ("No config for operating system: " ++ f)

/-! ## Vocabulary of the specification -/

/-- The identities that the exact-match stage knows. -/
def exactKeys : List String :=
  ["centos:7", "centos:7.4", "centos:7.5", "centos:7.6",
   "debian", "debian:8", "debian:9", "debian:10", "debian:11", "debian:12",
   "ubuntu:16.04", "ubuntu:18.04", "ubuntu:18.10", "ubuntu:19.04"]

/-- An identity is supported when its lower-case form is an exact key or starts with
`flatcar`. -/
def Supported (tbl : Char → Char) (flavour : String) : Prop :=
  ToLower tbl flavour ∈ exactKeys ∨ HasPrefix (ToLower tbl flavour) "flatcar" = true

instance (tbl : Char → Char) (flavour : String) : Decidable (Supported tbl flavour) := by
  unfold Supported; infer_instance

/-- The exact keys of the CentOS family. -/
def centosKeys : List String :=
  ["centos:7", "centos:7.4", "centos:7.5", "centos:7.6"]

/-- The exact keys of the Debian/Ubuntu family. -/
def debianKeys : List String :=
  ["debian", "debian:8", "debian:9", "debian:10", "debian:11", "debian:12",
   "ubuntu:16.04", "ubuntu:18.04", "ubuntu:18.10", "ubuntu:19.04"]

/-- The case table that changes no rune outside ASCII. -/
def asciiTable : Char → Char :=
  fun c => c

/-- An environment in which every command succeeds and prints nothing (in particular the
process lookup finds nothing). -/
def quietEnv : Env :=
  fun _ _ => ⟨"", none⟩

/-- An environment in which the process lookup lists one process and fails, the kill
reports it, and the other commands print `done`. -/
def busyEnv : Env :=
  fun _ args =>
    if args.head? = some "pgrep" then ⟨"4242 sleep\n", some "exit status 1"⟩
    else if args.head? = some "pkill" then ⟨"sleep killed (pid 4242)\n", none⟩
    else ⟨"done", none⟩

/-- The world before any command was run. -/
def World.initial : World :=
  ⟨[], []⟩

/-- The process lookup of `delUser`. -/
def pgrepArgv (username : String) : List String :=
  ["pgrep", "-l", "-u", username]

/-- The unconditional kill of `delUser`. -/
def pkillArgv (username : String) : List String :=
  ["pkill", "--signal", "9", "-e", "-u", username]

/-- The options of a command line: what stands between the program name and the final
operand. -/
def optionsOf (argv : List String) : List String :=
  argv.tail.dropLast

/-- The account-deletion utilities. -/
def isDeleteUtility (prog : Option String) : Prop :=
  prog = some "userdel" ∨ prog = some "deluser"

instance (prog : Option String) : Decidable (isDeleteUtility prog) := by
  unfold isDeleteUtility; infer_instance

/-- The flags of the deletion utilities that remove the home directory. -/
def isRemoveHomeFlag (a : String) : Prop :=
  a = "--remove" ∨ a = "-r" ∨ a = "--remove-home"

instance (a : String) : Decidable (isRemoveHomeFlag a) := by
  unfold isRemoveHomeFlag; infer_instance

/-- The flags of the deletion utilities that force the removal. -/
def isForceFlag (a : String) : Prop :=
  a = "-f" ∨ a = "--force"

instance (a : String) : Decidable (isForceFlag a) := by
  unfold isForceFlag; infer_instance

/-- What the specification says of the deletion command: the deletion utility, with a flag
that removes the home directory and a flag that forces the removal, and the user name as
final argument. -/
def DeletesForcibly (username : String) (argv : List String) : Prop :=
  isDeleteUtility argv.head?
    ∧ (∃ a ∈ optionsOf argv, isRemoveHomeFlag a)
    ∧ (∃ a ∈ optionsOf argv, isForceFlag a)
    ∧ argv.getLast? = some username

instance (username : String) (argv : List String) :
    Decidable (DeletesForcibly username argv) := by
  unfold DeletesForcibly; infer_instance

/-- The action runs exactly one external command, with argument vector `argv`, logs
nothing, and returns the result of that command unchanged. -/
def RunsOnly (a : Action) (argv : List String) : Prop :=
  ∀ (env : Env) (w : World),
    a env w = (env w.trace argv, { w with trace := w.trace ++ [argv] })

/-- Two operations with two arguments are present and behave alike: same commands run,
same lines logged, same result, whatever the environment answers. -/
def Agree2 (a b : Option (String → String → Action)) : Prop :=
  ∃ f g, a = some f ∧ b = some g ∧ ∀ x y env w, f x y env w = g x y env w

/-- Two operations with one argument are present and behave alike. -/
def Agree1 (a b : Option (String → Action)) : Prop :=
  ∃ f g, a = some f ∧ b = some g ∧ ∀ x env w, f x env w = g x env w

/-- Structural equivalence of two command tables: each of the seven operations behaves
alike in both. -/
def StructurallyEquivalent (t1 t2 : distroCommands) : Prop :=
  Agree2 t1.addUser t2.addUser ∧ Agree1 t1.delUser t2.delUser
    ∧ Agree2 t1.changeShell t2.changeShell ∧ Agree2 t1.changePassword t2.changePassword
    ∧ Agree2 t1.changeHomeDir t2.changeHomeDir ∧ Agree2 t1.changeGroups t2.changeGroups
    ∧ Agree2 t1.changeComment t2.changeComment

/-- The account-creation utilities. -/
def isCreateUtility (prog : Option String) : Prop :=
  prog = some "adduser" ∨ prog = some "useradd"

/-- The flags of the creation utilities that select the home directory. -/
def isHomeFlag (a : String) : Prop :=
  a = "--home" ∨ a = "--home-dir" ∨ a = "-d"

/-- The flags of the creation utilities that disable the password prompt. -/
def isNoPasswordPromptFlag (a : String) : Prop :=
  a = "--disabled-password" ∨ a = "--disabled-login"

instance (a : String) : Decidable (isNoPasswordPromptFlag a) := by
  unfold isNoPasswordPromptFlag; infer_instance

/-- The flags of the creation utilities that ask for the home directory to be created. -/
def isCreateHomeFlag (a : String) : Prop :=
  a = "-m" ∨ a = "--create-home"

instance (a : String) : Decidable (isCreateHomeFlag a) := by
  unfold isCreateHomeFlag; infer_instance

/-- What the specification says of the creation command: the creation utility, a home flag
immediately followed by the home directory, a flag that disables the password prompt, a
flag that requests the creation of the home directory, and the user name last. -/
def CreatesAsSpecified (username home : String) (argv : List String) : Prop :=
  isCreateUtility argv.head?
    ∧ (∃ pre flag post, argv = pre ++ flag :: home :: post ∧ isHomeFlag flag)
    ∧ (∃ a ∈ optionsOf argv, isNoPasswordPromptFlag a)
    ∧ (∃ a ∈ optionsOf argv, isCreateHomeFlag a)
    ∧ argv.getLast? = some username

/-- The key of a line: its text before the first `=`. -/
def lineKey (line : String) : String :=
  (Split line '=').headD ""

/-- The value of a line as `getOS` reads it: the second `=`-separated field without its
double quotes. -/
def lineValue (line : String) : String :=
  Replace ((Split line '=').getD 1 "") '"' ""

/-- The value captured for `key` in a file: the value of the last line whose key is `key`,
or `dflt` when the file has no such line. -/
def capturedFrom (dflt : String) (key : String) (lines : List String) : String :=
  match (lines.filter (fun l => lineKey l = key)).getLast? with
  | some l => lineValue l
  | none => dflt

/-- The value captured for `key`, empty when no line has this key. -/
def captured (key : String) (lines : List String) : String :=
  capturedFrom "" key lines

/-- The text of `value` up to its first `=` (all of it when it has none). -/
def untilEq (value : String) : String :=
  ⟨value.data.takeWhile (fun c => c ≠ '=')⟩

/-! ## `hook.go` -/

/-- The type `hookEvent`, a string type. -/
abbrev hookEvent := String

/-- The constant `evtWarnJSON`. -/
def evtWarnJSON : hookEvent := "WJSON"

/-- The constant `evtErrGitOps`. -/
def evtErrGitOps : hookEvent := "EGITOPS"

/-- The constant `evtErrUserAdd`. -/
def evtErrUserAdd : hookEvent := "EUSERADD"

/-- The constant `evtErrUserDel`. -/
def evtErrUserDel : hookEvent := "EUSERDEL"

/-- The constant `evtErrUserMod`. -/
def evtErrUserMod : hookEvent := "EUSERMOD"

/-- The constant `evtUserAdd`. -/
def evtUserAdd : hookEvent := "IUSERADD"

/-- The constant `evtUserDel`. -/
def evtUserDel : hookEvent := "IUSERDEL"

/-- The constant `evtUserMod`. -/
def evtUserMod : hookEvent := "IUSERMOD"

/-- The struct `noopHookExecutor`, without fields. -/
structure noopHookExecutor where
  deriving DecidableEq, Repr

/-- The struct `hookCommandExecutor`. -/
structure hookCommandExecutor where
  path : String
  deriving DecidableEq, Repr

/-- The interface `hookExecutor`, with its two implementations. -/
inductive hookExecutor where
  | noop (h : noopHookExecutor)
  | command (h : hookCommandExecutor)
  deriving DecidableEq, Repr

/-- `exec.Command(argv[0], argv[1:]...).Run()`: the command is run, its output is
discarded and only the error is given back. -/
def Run (argv : List String) (env : Env) (w : World) : Option String × World :=
  ((env w.trace argv).err, { w with trace := w.trace ++ [argv] })

/-- `noopHookExecutor.Exec`: an empty body. -/
def noopHookExecutor.Exec (_h : noopHookExecutor) (_evt : hookEvent) (_msgs : List String)
    (_env : Env) (w : World) : World :=
  w

/-- `hookCommandExecutor.Exec`: the event, then the messages, are the arguments of the
bound executable; a failure is logged. -/
def hookCommandExecutor.Exec (h : hookCommandExecutor) (evt : hookEvent) (msgs : List String)
    (env : Env) (w : World) : World :=
  let args : List String := []
  let args := args ++ [evt]
  let args := args ++ msgs
  let r := Run (h.path :: args) env w
  match r.1 with
  | some err =>
    logPrintf ("Warn: command " ++ h.path ++ " execution failure: " ++ err) r.2
  | none => r.2

/-- The method `Exec` of the interface, dispatched on the implementation. -/
def hookExecutor.Exec (x : hookExecutor) (evt : hookEvent) (msgs : List String)
    (env : Env) (w : World) : World :=
  match x with
  | .noop h => h.Exec evt msgs env w
  | .command h => h.Exec evt msgs env w

/-- The search path: what `exec.LookPath` answers for a name, a path and an error
(`none` is `nil`). -/
abbrev LookPath := String → String × Option String

/-- What a call of `getHookExecutor` gives back (`executor = none` is the `nil` interface
value) and the names it looked up on the search path, in order. -/
structure HookResolution where
  executor : Option hookExecutor
  err : Option String
  lookups : List String
  deriving DecidableEq, Repr

/-- `getHookExecutor`. -/
def getHookExecutor (lookPath : LookPath) (cmd : String) : HookResolution :=
  if cmd ≠ "" then
    let r := lookPath cmd
    match r.2 with
    | some err => { executor := none, err := some err, lookups := [cmd] }
    | none => { executor := some (.command ⟨r.1⟩), err := none, lookups := [cmd] }
  else
    { executor := some (.noop ⟨⟩), err := none, lookups := [] }

/-! ## Vocabulary of the specification for the hooks -/

/-- The event constants, in the order of their declaration. -/
def hookEvents : List hookEvent :=
  [evtWarnJSON, evtErrGitOps, evtErrUserAdd, evtErrUserDel, evtErrUserMod,
   evtUserAdd, evtUserDel, evtUserMod]

/-- A search path on which no name is found. -/
def emptySearchPath : LookPath :=
  fun name => ("", some ("exec: \"" ++ name ++ "\": executable file not found in $PATH"))

/-- A search path on which only `notify` is found, in `/usr/local/bin`. -/
def notifySearchPath : LookPath :=
  fun name =>
    if name = "notify" then ("/usr/local/bin/notify", none)
    else ("", some ("exec: \"" ++ name ++ "\": executable file not found in $PATH"))

/-- An environment in which every command fails with exit status 1 and prints nothing. -/
def failingEnv : Env :=
  fun _ _ => ⟨"", some "exit status 1"⟩

/-- A line of the output of `pgrep -l` that names a process: a process ID in decimal
digits, a blank, and the name of the process. -/
def isProcessLine (line : String) : Bool :=
  let digits := line.data.takeWhile Char.isDigit
  !digits.isEmpty && (line.data.drop digits.length).head? == some ' '

/-- The lookup found process IDs: some line of its output names a process. -/
def listsProcessIDs (out : String) : Bool :=
  (Split out '\n').any isProcessLine

/-- An environment in which the process lookup finds no process and fails with a message
(the user is unknown), and every other command succeeds and prints nothing. -/
def brokenLookupEnv : Env :=
  fun _ args =>
    if args.head? = some "pgrep" then
      ⟨"pgrep: invalid user name: alice\n", some "exit status 2"⟩
    else ⟨"", none⟩

/-- An environment in which the process lookup prints white space only, and every other
command succeeds and prints nothing. -/
def blankLookupEnv : Env :=
  fun _ args =>
    if args.head? = some "pgrep" then ⟨"\n \t\r\n", some "exit status 1"⟩
    else ⟨"", none⟩

/-- The commands run between the world `w` and the later world `w1`, in order. -/
def commandsSince (w w1 : World) : List (List String) :=
  w1.trace.drop w.trace.length

/-! ## Auxiliary facts -/

theorem splitChars_ne_nil (sep : Char) (cs : List Char) : splitChars sep cs ≠ [] := by
  cases cs with
  | nil => simp [splitChars]
  | cons c cs =>
    unfold splitChars
    split_ifs
    · simp
    · split <;> simp

theorem splitChars_single_or_long (sep : Char) (cs : List Char) :
    splitChars sep cs = [cs] ∨ 2 ≤ (splitChars sep cs).length := by
  induction cs with
  | nil => left; rfl
  | cons c cs ih =>
    unfold splitChars
    split_ifs with hc
    · right
      have := List.length_pos.2 (splitChars_ne_nil sep cs)
      simp only [List.length_cons]
      omega
    · rcases ih with ih | ih
      · left; rw [ih]
      · right
        split
        · next h => rw [h] at ih; simp at ih
        · next p ps h => rw [h] at ih; simpa using ih

theorem splitChars_head (sep : Char) (cs : List Char) :
    (splitChars sep cs).head? = some (cs.takeWhile (fun c => c ≠ sep)) := by
  induction cs with
  | nil => rfl
  | cons c cs ih =>
    unfold splitChars
    split_ifs with hc
    · simp [List.takeWhile, hc]
    · split
      · next h => exact absurd h (splitChars_ne_nil sep cs)
      · next p ps h =>
        rw [h] at ih
        simp only [List.head?_cons, Option.some.injEq] at ih
        simp [List.takeWhile, hc, ih]

/-- A line without the panic of `bits[1]`: the step is the two conditional updates. -/
theorem lineStep_eq (line : String) (v : String × String)
    (h : line ≠ "ID" ∧ line ≠ "VERSION_ID") :
    lineStep line v =
      .ret (if lineKey line = "ID" then lineValue line else v.1,
            if lineKey line = "VERSION_ID" then lineValue line else v.2) := by
  unfold lineStep lineKey lineValue Split
  rcases splitChars_single_or_long '=' line.data with hs | hs
  · rw [hs]
    have h1 : (⟨line.data⟩ : String) = line := rfl
    simp only [List.map_cons, List.map_nil, List.length_singleton, Nat.lt_one_iff,
      List.headD_cons, index, List.get?_cons_zero, Outcome.bind, h1]
    simp [h.1, h.2, Outcome.bind]
  · obtain ⟨a, b, rest, hl⟩ : ∃ a b rest, splitChars '=' line.data = a :: b :: rest := by
      match hm : splitChars '=' line.data, hs with
      | a :: b :: rest, _ => exact ⟨a, b, rest, rfl⟩
      | [_], h2 => simp at h2
      | [], h2 => simp at h2
    rw [hl]
    simp only [List.map_cons, List.length_cons, index, List.get?_cons_zero,
      List.get?_cons_succ, Outcome.bind, List.headD_cons, List.getD_cons_succ,
      List.getD_cons_zero]
    by_cases k1 : (⟨a⟩ : String) = "ID"
    · have k2 : ¬ (⟨a⟩ : String) = "VERSION_ID" := by rw [k1]; decide
      simp [k1, Outcome.bind]
    · by_cases k2 : (⟨a⟩ : String) = "VERSION_ID"
      · simp [k2, Outcome.bind]
      · simp [k1, k2, Outcome.bind]

theorem capturedFrom_cons (dflt key l : String) (ls : List String) :
    capturedFrom dflt key (l :: ls)
      = capturedFrom (if lineKey l = key then lineValue l else dflt) key ls := by
  unfold capturedFrom
  by_cases hk : lineKey l = key
  · simp only [List.filter_cons, hk, decide_True, if_true, List.getLast?_cons]
    cases (List.filter (fun l => decide (lineKey l = key)) ls).getLast? <;> rfl
  · simp [List.filter_cons, hk]

theorem lineLoop_eq (lines : List String) (v : String × String)
    (h : ∀ l ∈ lines, l ≠ "ID" ∧ l ≠ "VERSION_ID") :
    lineLoop lines v
      = .ret (capturedFrom v.1 "ID" lines, capturedFrom v.2 "VERSION_ID" lines) := by
  induction lines generalizing v with
  | nil => rfl
  | cons l ls ih =>
    unfold lineLoop
    rw [lineStep_eq l v (h l (List.mem_cons_self _ _))]
    simp only [Outcome.bind]
    rw [ih _ (fun l' hl' => h l' (List.mem_cons_of_mem _ hl'))]
    rw [capturedFrom_cons, capturedFrom_cons]

theorem hasPrefix_iff (s pre : String) : HasPrefix s pre = true ↔ pre.data <+: s.data := by
  unfold HasPrefix
  exact List.isPrefixOf_iff_prefix

theorem hasPrefix_long_short (f : String) (h : HasPrefix f "flatcar:3510.3" = true) :
    HasPrefix f "flatcar" = true := by
  rw [hasPrefix_iff] at *
  exact List.IsPrefix.trans (by decide) h

theorem not_exact_of_flatcar (f : String) (h : HasPrefix f "flatcar" = true) :
    f ∉ exactKeys := by
  intro hmem
  simp only [exactKeys, List.mem_cons, List.mem_singleton, List.mem_nil_iff, or_false] at hmem
  rcases hmem with h1 | h1 | h1 | h1 | h1 | h1 | h1 | h1 | h1 | h1 | h1 | h1 | h1 | h1 <;>
    · subst h1
      revert h
      decide

theorem mem_exactKeys_iff (f : String) :
    f ∈ exactKeys ↔
      (f ∈ ["centos:7", "centos:7.4", "centos:7.5", "centos:7.6"]
        ∨ f ∈ ["debian", "debian:8", "debian:9", "debian:10", "debian:11", "debian:12",
            "ubuntu:16.04", "ubuntu:18.04", "ubuntu:18.10", "ubuntu:19.04"]) := by
  rw [← List.mem_append]
  rfl

theorem getOSCommands_cases (tbl : Char → Char) (flavour : String) :
    (ToLower tbl flavour ∈ ["centos:7", "centos:7.4", "centos:7.5", "centos:7.6"]
        ∧ getOSCommands tbl flavour = .ret centosCommands)
    ∨ (ToLower tbl flavour ∈ ["debian", "debian:8", "debian:9", "debian:10", "debian:11",
          "debian:12", "ubuntu:16.04", "ubuntu:18.04", "ubuntu:18.10", "ubuntu:19.04"]
        ∧ getOSCommands tbl flavour = .ret debianCommands)
    ∨ (HasPrefix (ToLower tbl flavour) "flatcar" = true
        ∧ getOSCommands tbl flavour = .ret flatcarCommands)
    ∨ (¬ Supported tbl flavour
        ∧ getOSCommands tbl flavour
            = .fatal ("No config for operating system: " ++ ToLower tbl flavour)) := by
  unfold getOSCommands Supported
  by_cases h1 : ToLower tbl flavour ∈ ["centos:7", "centos:7.4", "centos:7.5", "centos:7.6"]
  · left; simp [h1]
  by_cases h2 : ToLower tbl flavour ∈ ["debian", "debian:8", "debian:9", "debian:10",
      "debian:11", "debian:12", "ubuntu:16.04", "ubuntu:18.04", "ubuntu:18.10", "ubuntu:19.04"]
  · right; left
    refine ⟨h2, ?_⟩
    rw [if_neg h1, if_pos h2]
  by_cases h3 : HasPrefix (ToLower tbl flavour) "flatcar" = true
  · right; right; left
    refine ⟨h3, ?_⟩
    rw [if_neg h1, if_neg h2, if_pos (by simp [h3])]
  · right; right; right
    have h4 : ¬ HasPrefix (ToLower tbl flavour) "flatcar:3510.3" = true :=
      fun h => h3 (hasPrefix_long_short _ h)
    refine ⟨?_, ?_⟩
    · rintro (h | h)
      · rcases (mem_exactKeys_iff _).1 h with h | h
        · exact h1 h
        · exact h2 h
      · exact h3 h
    · rw [if_neg h1, if_neg h2, if_neg (by simp [h3, h4])]

theorem centos_not_debian (f : String) (h : f ∈ centosKeys) : f ∉ debianKeys := by
  simp only [centosKeys, List.mem_cons, List.mem_singleton, List.mem_nil_iff, or_false] at h
  rcases h with h | h | h | h <;>
    · subst h
      decide

/-- The three ways an identity is supported, with the table each gets. -/
theorem supported_cases (tbl : Char → Char) (flavour : String) (hs : Supported tbl flavour) :
    (ToLower tbl flavour ∈ centosKeys ∧ ToLower tbl flavour ∉ debianKeys
        ∧ getOSCommands tbl flavour = .ret centosCommands)
    ∨ (ToLower tbl flavour ∈ debianKeys
        ∧ getOSCommands tbl flavour = .ret debianCommands)
    ∨ (HasPrefix (ToLower tbl flavour) "flatcar" = true ∧ ToLower tbl flavour ∉ debianKeys
        ∧ getOSCommands tbl flavour = .ret flatcarCommands) := by
  rcases getOSCommands_cases tbl flavour with h | h | h | h
  · exact Or.inl ⟨h.1, centos_not_debian _ h.1, h.2⟩
  · exact Or.inr (Or.inl h)
  · exact Or.inr (Or.inr ⟨h.1,
      fun hd => not_exact_of_flatcar _ h.1 ((mem_exactKeys_iff _).2 (Or.inr hd)), h.2⟩)
  · exact absurd hs h.1

theorem killProcesses_trace (username : String) (env : Env) (w : World) :
    (killProcesses username env w).trace
      = w.trace ++ (pgrepArgv username ::
          (if TrimSpace (env w.trace (pgrepArgv username)).out ≠ "" then [pkillArgv username]
           else [])) := by
  by_cases h1 : TrimSpace (env w.trace ["pgrep", "-l", "-u", username]).out = ""
  · simp [killProcesses, CombinedOutput, logPrintf, pgrepArgv, pkillArgv, h1]
  · by_cases h2 : TrimSpace (env (w.trace ++ [["pgrep", "-l", "-u", username]])
        ["pkill", "--signal", "9", "-e", "-u", username]).out = ""
    · simp [killProcesses, CombinedOutput, logPrintf, pgrepArgv, pkillArgv, h1, h2]
    · simp [killProcesses, CombinedOutput, logPrintf, pgrepArgv, pkillArgv, h1, h2]

/-- The deletion that follows the lookup-and-kill block, for any deletion command line. -/
theorem deletion_after_kill (delArgv : List String) (hdel : isDeleteUtility delArgv.head?)
    (username : String) (env : Env) (w : World) :
    ∃ pre,
      (CombinedOutput delArgv env (killProcesses username env w)).2.trace
          = w.trace ++ pre ++ [delArgv]
      ∧ (∀ c ∈ pre, c = pgrepArgv username ∨ c = pkillArgv username)
      ∧ (pre ++ [delArgv]).countP (fun c => decide (isDeleteUtility c.head?)) = 1
      ∧ (CombinedOutput delArgv env (killProcesses username env w)).1
          = env (w.trace ++ pre) delArgv
      ∧ (TrimSpace (env w.trace (pgrepArgv username)).out = "" →
          (CombinedOutput delArgv env (killProcesses username env w)).2.trace
            = w.trace ++ [pgrepArgv username, delArgv]) := by
  refine ⟨pgrepArgv username ::
      (if TrimSpace (env w.trace (pgrepArgv username)).out ≠ "" then [pkillArgv username]
       else []), ?_, ?_, ?_, ?_, ?_⟩
  · simp only [CombinedOutput, killProcesses_trace]
  · intro c hc
    by_cases h1 : TrimSpace (env w.trace (pgrepArgv username)).out = "" <;>
      simp [h1] at hc <;> tauto
  · have hd : decide (isDeleteUtility delArgv.head?) = true := decide_eq_true hdel
    by_cases h1 : TrimSpace (env w.trace (pgrepArgv username)).out = ""
    · rw [if_neg (not_not.2 h1)]
      simp [List.countP_cons, hd, pgrepArgv, isDeleteUtility]
      exact fun hn => hdel.resolve_left hn
    · rw [if_pos h1]
      simp [List.countP_cons, hd, pgrepArgv, pkillArgv, isDeleteUtility]
      exact fun hn => hdel.resolve_left hn
  · simp only [CombinedOutput, killProcesses_trace]
  · intro h1
    simp [CombinedOutput, killProcesses_trace, h1]

theorem toLowerRune_ascii_idem (tbl : Char → Char) (c : Char) (h : c.toNat < 128) :
    toLowerRune tbl (toLowerRune tbl c) = toLowerRune tbl c := by
  by_cases hu : 'A' ≤ c ∧ c ≤ 'Z'
  · have hn : 65 ≤ c.toNat ∧ c.toNat ≤ 90 := by
      have h1 := hu.1
      have h2 := hu.2
      rw [Char.le_def] at h1 h2
      exact ⟨h1, h2⟩
    obtain ⟨n, hn1, hn2, hc⟩ : ∃ n, 65 ≤ n ∧ n ≤ 90 ∧ c = Char.ofNat n :=
      ⟨c.toNat, hn.1, hn.2, (Char.ofNat_toNat c).symm⟩
    subst hc
    interval_cases n <;> rfl
  · have : toLowerRune tbl c = c := by
      unfold toLowerRune
      rw [if_pos h, if_neg hu]
    rw [this, this]

/-- The lower-casing of a rune is idempotent as soon as the case table of the library
yields runes that lower-casing leaves unchanged. -/
theorem toLowerRune_idem (tbl : Char → Char)
    (htbl : ∀ c : Char, 128 ≤ c.toNat → toLowerRune tbl (tbl c) = tbl c) (c : Char) :
    toLowerRune tbl (toLowerRune tbl c) = toLowerRune tbl c := by
  by_cases h : c.toNat < 128
  · exact toLowerRune_ascii_idem tbl c h
  · have : toLowerRune tbl c = tbl c := by
      unfold toLowerRune
      rw [if_neg h]
    rw [this]
    exact htbl c (Nat.le_of_not_lt h)

theorem toLower_idem (tbl : Char → Char)
    (htbl : ∀ c : Char, 128 ≤ c.toNat → toLowerRune tbl (tbl c) = tbl c) (s : String) :
    ToLower tbl (ToLower tbl s) = ToLower tbl s := by
  unfold ToLower
  simp only [List.map_map]
  congr 1
  apply List.map_congr_left
  intro c _
  exact toLowerRune_idem tbl htbl c

theorem toLower_key (tbl : Char → Char) (k : String) (h : k ∈ exactKeys) :
    ToLower tbl k = k := by
  simp only [exactKeys, List.mem_cons, List.mem_singleton, List.mem_nil_iff, or_false] at h
  rcases h with h | h | h | h | h | h | h | h | h | h | h | h | h | h <;>
    · subst h
      rfl

theorem structurallyEquivalent_refl (t : distroCommands)
    (h : t = centosCommands ∨ t = debianCommands ∨ t = flatcarCommands) :
    StructurallyEquivalent t t := by
  rcases h with h | h | h <;>
    · subst h
      exact ⟨⟨_, _, rfl, rfl, fun _ _ _ _ => rfl⟩, ⟨_, _, rfl, rfl, fun _ _ _ => rfl⟩,
        ⟨_, _, rfl, rfl, fun _ _ _ _ => rfl⟩, ⟨_, _, rfl, rfl, fun _ _ _ _ => rfl⟩,
        ⟨_, _, rfl, rfl, fun _ _ _ _ => rfl⟩, ⟨_, _, rfl, rfl, fun _ _ _ _ => rfl⟩,
        ⟨_, _, rfl, rfl, fun _ _ _ _ => rfl⟩⟩

/-- Which table an identity gets. -/
theorem supported_iff_cases (tbl : Char → Char) (flavour : String) :
    Supported tbl flavour ↔
      (getOSCommands tbl flavour = .ret centosCommands
        ∨ getOSCommands tbl flavour = .ret debianCommands
        ∨ getOSCommands tbl flavour = .ret flatcarCommands) := by
  constructor
  · intro hs
    rcases getOSCommands_cases tbl flavour with h | h | h | h
    · exact Or.inl h.2
    · exact Or.inr (Or.inl h.2)
    · exact Or.inr (Or.inr h.2)
    · exact absurd hs h.1
  · intro hr
    by_contra hs
    rcases getOSCommands_cases tbl flavour with h | h | h | h
    · exact hs (Or.inl ((mem_exactKeys_iff _).2 (Or.inl h.1)))
    · exact hs (Or.inl ((mem_exactKeys_iff _).2 (Or.inr h.1)))
    · exact hs (Or.inr h.1)
    · rw [h.2] at hr
      rcases hr with hr | hr | hr <;> cases hr

/-! ## Fatal configuration error (C1) -/

/-- C1: `getOSCommands` ends in the fatal configuration error exactly for the identities
whose lower-case form is neither one of the fourteen registered keys nor starts with
`flatcar`, and returns a table exactly for the others; the identities the empty string,
`centos:8`, `debian:13` and `ubuntu:22.04` are fatal. -/
theorem getOSCommands_fatal_iff_unsupported (tbl : Char → Char) (flavour : String) :
    ((∃ msg, getOSCommands tbl flavour = .fatal msg) ↔
        ¬ (ToLower tbl flavour ∈
            ["centos:7", "centos:7.4", "centos:7.5", "centos:7.6",
             "debian", "debian:8", "debian:9", "debian:10", "debian:11", "debian:12",
             "ubuntu:16.04", "ubuntu:18.04", "ubuntu:18.10", "ubuntu:19.04"]
          ∨ HasPrefix (ToLower tbl flavour) "flatcar" = true))
    ∧ ((∃ t, getOSCommands tbl flavour = .ret t) ↔
        (ToLower tbl flavour ∈
            ["centos:7", "centos:7.4", "centos:7.5", "centos:7.6",
             "debian", "debian:8", "debian:9", "debian:10", "debian:11", "debian:12",
             "ubuntu:16.04", "ubuntu:18.04", "ubuntu:18.10", "ubuntu:19.04"]
          ∨ HasPrefix (ToLower tbl flavour) "flatcar" = true))
    ∧ getOSCommands tbl "" = .fatal "No config for operating system: "
    ∧ getOSCommands tbl "centos:8" = .fatal "No config for operating system: centos:8"
    ∧ getOSCommands tbl "debian:13" = .fatal "No config for operating system: debian:13"
    ∧ getOSCommands tbl "ubuntu:22.04"
        = .fatal "No config for operating system: ubuntu:22.04" := by
  have key : Supported tbl flavour ↔
      (ToLower tbl flavour ∈
            ["centos:7", "centos:7.4", "centos:7.5", "centos:7.6",
             "debian", "debian:8", "debian:9", "debian:10", "debian:11", "debian:12",
             "ubuntu:16.04", "ubuntu:18.04", "ubuntu:18.10", "ubuntu:19.04"]
          ∨ HasPrefix (ToLower tbl flavour) "flatcar" = true) := Iff.rfl
  rw [← key]
  refine ⟨?_, ?_, rfl, rfl, rfl, rfl⟩
  · constructor
    · rintro ⟨msg, hmsg⟩ hs
      rw [supported_iff_cases] at hs
      rw [hmsg] at hs
      rcases hs with hs | hs | hs <;> cases hs
    · intro hs
      rcases getOSCommands_cases tbl flavour with h | h | h | h
      · exact absurd ((supported_iff_cases tbl flavour).2 (Or.inl h.2)) hs
      · exact absurd ((supported_iff_cases tbl flavour).2 (Or.inr (Or.inl h.2))) hs
      · exact absurd ((supported_iff_cases tbl flavour).2 (Or.inr (Or.inr h.2))) hs
      · exact ⟨_, h.2⟩
  · constructor
    · rintro ⟨t, ht⟩
      by_contra hs
      rcases getOSCommands_cases tbl flavour with h | h | h | h
      · exact hs ((supported_iff_cases tbl flavour).2 (Or.inl h.2))
      · exact hs ((supported_iff_cases tbl flavour).2 (Or.inr (Or.inl h.2)))
      · exact hs ((supported_iff_cases tbl flavour).2 (Or.inr (Or.inr h.2)))
      · rw [h.2] at ht
        cases ht
    · intro hs
      rcases (supported_iff_cases tbl flavour).1 hs with h | h | h
      · exact ⟨_, h⟩
      · exact ⟨_, h⟩
      · exact ⟨_, h⟩

/-! ## The identity string (C2, C3) -/

/-- C2: for every content of the identity file none of whose lines is exactly `ID` or
`VERSION_ID` (so for every file of `KEY=VALUE` lines, blank lines allowed), `getOS` returns
`id:version_id` when the captured `ID` and `VERSION_ID` values are both non-empty, `id`
when only the `ID` value is non-empty, and the empty string otherwise; the captured value
of a key is that of the last line with this key.  The three examples of the specification
are instances, and so is a file with a `VERSION_ID` line and no `ID` line. -/
theorem getOS_composes_identity (content : String)
    (h : ∀ l ∈ Split content '\n', l ≠ "ID" ∧ l ≠ "VERSION_ID") :
    getOS (.ok content)
        = .ret (if captured "ID" (Split content '\n') ≠ ""
                    ∧ captured "VERSION_ID" (Split content '\n') ≠ "" then
                  captured "ID" (Split content '\n') ++ ":"
                    ++ captured "VERSION_ID" (Split content '\n')
                else if captured "ID" (Split content '\n') ≠ "" then
                  captured "ID" (Split content '\n')
                else "")
    ∧ getOS (.ok "ID=\"debian\"\nVERSION_ID=\"11\"\n") = .ret "debian:11"
    ∧ getOS (.ok "NAME=\"CentOS Linux\"\nID=\"centos\"\n") = .ret "centos"
    ∧ getOS (.ok "NAME=\"Linux\"\nPRETTY_NAME=\"Some Linux\"\n") = .ret ""
    ∧ getOS (.ok "VERSION_ID=\"11\"\n") = .ret "" := by
  refine ⟨?_, by decide, by decide, by decide, by decide⟩
  unfold getOS
  simp only [lineLoop_eq _ _ h, Outcome.bind, captured]
  split_ifs <;> rfl

theorem getOS_composes_identity_witness :
    (∀ l ∈ Split "PRETTY_NAME=\"Debian GNU/Linux 11\"\nVERSION_ID=\"11\"\nID=debian\n" '\n',
        l ≠ "ID" ∧ l ≠ "VERSION_ID")
    ∧ getOS (.ok "PRETTY_NAME=\"Debian GNU/Linux 11\"\nVERSION_ID=\"11\"\nID=debian\n")
        = .ret "debian:11" :=
  ⟨by decide,
   ((getOS_composes_identity
      "PRETTY_NAME=\"Debian GNU/Linux 11\"\nVERSION_ID=\"11\"\nID=debian\n"
      (by decide)).1).trans (by decide)⟩

/-- C3, as stated, fails: on the line `ID="a=b"` the value captured is `a`, not the whole
text `a=b` after the first `=`; likewise for `VERSION_ID`. -/
theorem getOS_value_not_whole_text :
    lineStep "ID=\"a=b\"" ("", "") = .ret ("a", "")
    ∧ lineStep "ID=\"a=b\"" ("", "") ≠ .ret (Replace "\"a=b\"" '"' "", "")
    ∧ Replace "\"a=b\"" '"' "" = "a=b"
    ∧ lineStep "VERSION_ID=\"a=b\"" ("", "") = .ret ("", "a")
    ∧ getOS (.ok "ID=\"a=b\"\n") = .ret "a"
    ∧ getOS (.ok "ID=\"a=b\"\n") ≠ .ret "a=b" := by
  decide

/-- C3, amended: on a line `ID=VALUE` (respectively `VERSION_ID=VALUE`) the line loop
captures the text of `VALUE` up to its next `=` (all of `VALUE` when it has none) with the
double quotes removed, and leaves the other variable unchanged; when `VALUE` has no
further `=` this is the whole text after the first `=`, quotes removed. -/
theorem getOS_value_until_next_eq (value : String) (v : String × String) :
    lineStep ("ID=" ++ value) v = .ret (Replace (untilEq value) '"' "", v.2)
    ∧ lineStep ("VERSION_ID=" ++ value) v = .ret (v.1, Replace (untilEq value) '"' "")
    ∧ ('=' ∉ value.data → untilEq value = value) := by
  obtain ⟨p, ps, hp⟩ : ∃ p ps, splitChars '=' value.data = p :: ps := by
    cases hs : splitChars '=' value.data with
    | nil => exact absurd hs (splitChars_ne_nil _ _)
    | cons p ps => exact ⟨p, ps, rfl⟩
  have hhead := splitChars_head '=' value.data
  rw [hp] at hhead
  simp only [List.head?_cons, Option.some.injEq] at hhead
  have hid : Split ("ID=" ++ value) '=' = "ID" :: untilEq value :: ps.map String.mk := by
    unfold Split untilEq
    rw [String.data_append]
    show List.map String.mk (splitChars '=' ('I' :: 'D' :: '=' :: value.data)) = _
    simp [splitChars, hp, hhead]
  have hver : Split ("VERSION_ID=" ++ value) '='
      = "VERSION_ID" :: untilEq value :: ps.map String.mk := by
    unfold Split untilEq
    rw [String.data_append]
    show List.map String.mk (splitChars '='
      ('V' :: 'E' :: 'R' :: 'S' :: 'I' :: 'O' :: 'N' :: '_' :: 'I' :: 'D' :: '=' :: value.data))
      = _
    simp [splitChars, hp, hhead]
  refine ⟨?_, ?_, ?_⟩
  · unfold lineStep
    rw [hid]
    simp [index, Outcome.bind]
  · unfold lineStep
    rw [hver]
    simp [index, Outcome.bind]
  · intro hno
    unfold untilEq
    have : value.data.takeWhile (fun c => decide (c ≠ '=')) = value.data := by
      rw [List.takeWhile_eq_self_iff]
      intro c hc
      simp only [ne_eq, decide_not, Bool.not_eq_true', decide_eq_false_iff_not]
      rintro rfl
      exact hno hc
    rw [this]

theorem getOS_value_until_next_eq_witness :
    '=' ∉ "\"debian\"".data
    ∧ lineStep ("ID=" ++ "\"debian\"") ("", "11") = .ret ("debian", "11") :=
  ⟨by decide, by
    have h := getOS_value_until_next_eq "\"debian\"" ("", "11")
    rw [h.2.2 (by decide)] at h
    exact h.1⟩

/-! ## Deleting an account (C4, C5) -/

/-- C4, as stated, fails: for `debian:11` and the user `alice` the last command of `delUser`
is `deluser --remove-home alice`, which has no flag that forces the removal. -/
theorem delUser_debian_not_forcible :
    ∃ t del, getOSCommands asciiTable "debian:11" = .ret t ∧ t.delUser = some del
      ∧ (del "alice" quietEnv World.initial).2.trace.getLast?
          = some ["deluser", "--remove-home", "alice"]
      ∧ ¬ DeletesForcibly "alice" ["deluser", "--remove-home", "alice"]
      ∧ ¬ (∃ a ∈ ["deluser", "--remove-home", "alice"], isForceFlag a) :=
  ⟨debianCommands, _, rfl, rfl, by decide, by decide, by decide⟩

/-- C4, amended: for every supported identity and every user name, the last command
`delUser` runs is the deletion utility of the family with the user name as final argument:
`userdel --remove -f username` (home removal and force) for the CentOS keys and the
`flatcar` prefix, and `deluser --remove-home username` (home removal only) for the
Debian/Ubuntu keys. -/
theorem delUser_last_command (tbl : Char → Char) (flavour : String)
    (hs : Supported tbl flavour) (username : String) (env : Env) (w : World) :
    ∃ t del, getOSCommands tbl flavour = .ret t ∧ t.delUser = some del
      ∧ (ToLower tbl flavour ∉ debianKeys →
          (del username env w).2.trace.getLast?
            = some ["userdel", "--remove", "-f", username])
      ∧ (ToLower tbl flavour ∈ debianKeys →
          (del username env w).2.trace.getLast?
            = some ["deluser", "--remove-home", username]) := by
  rcases supported_cases tbl flavour hs with h | h | h
  · refine ⟨centosCommands, _, h.2.2, rfl, fun _ => ?_, fun hd => absurd hd h.2.1⟩
    simp only [CombinedOutput]
    exact List.getLast?_concat _
  · refine ⟨debianCommands, _, h.2, rfl, fun hd => absurd h.1 hd, fun _ => ?_⟩
    simp only [CombinedOutput]
    exact List.getLast?_concat _
  · refine ⟨flatcarCommands, _, h.2.2, rfl, fun _ => ?_, fun hd => absurd hd h.2.1⟩
    simp only [CombinedOutput]
    exact List.getLast?_concat _

theorem delUser_last_command_witness :
    Supported asciiTable "Flatcar:3510.3.1"
    ∧ ∃ t del, getOSCommands asciiTable "Flatcar:3510.3.1" = .ret t ∧ t.delUser = some del
      ∧ (ToLower asciiTable "Flatcar:3510.3.1" ∉ debianKeys →
          (del "alice" busyEnv World.initial).2.trace.getLast?
            = some ["userdel", "--remove", "-f", "alice"])
      ∧ (ToLower asciiTable "Flatcar:3510.3.1" ∈ debianKeys →
          (del "alice" busyEnv World.initial).2.trace.getLast?
            = some ["deluser", "--remove-home", "alice"]) :=
  ⟨by decide,
   delUser_last_command asciiTable "Flatcar:3510.3.1" (by decide) "alice" busyEnv
     World.initial⟩

/-- C5: for every supported identity, user name, environment (so every output and error of
the lookup and of the kill) and starting world, `delUser` runs the deletion utility exactly
once, as the last command, after the lookup and the kill (the only commands before it),
and returns exactly what the environment answers to the deletion command; when the lookup
prints nothing the commands are the lookup and then the deletion. -/
theorem delUser_deletes_once (tbl : Char → Char) (flavour : String)
    (hs : Supported tbl flavour) (username : String) (env : Env) (w : World) :
    ∃ t del delArgv pre, getOSCommands tbl flavour = .ret t ∧ t.delUser = some del
      ∧ isDeleteUtility delArgv.head?
      ∧ (del username env w).2.trace = w.trace ++ pre ++ [delArgv]
      ∧ (∀ c ∈ pre, c = pgrepArgv username ∨ c = pkillArgv username)
      ∧ (pre ++ [delArgv]).countP (fun c => decide (isDeleteUtility c.head?)) = 1
      ∧ (del username env w).1 = env (w.trace ++ pre) delArgv
      ∧ (TrimSpace (env w.trace (pgrepArgv username)).out = "" →
          (del username env w).2.trace = w.trace ++ [pgrepArgv username, delArgv]) := by
  rcases supported_cases tbl flavour hs with h | h | h
  · obtain ⟨pre, hp⟩ := deletion_after_kill ["userdel", "--remove", "-f", username]
      (Or.inl rfl) username env w
    exact ⟨centosCommands, _, ["userdel", "--remove", "-f", username], pre, h.2.2, rfl,
      Or.inl rfl, hp⟩
  · obtain ⟨pre, hp⟩ := deletion_after_kill ["deluser", "--remove-home", username]
      (Or.inr rfl) username env w
    exact ⟨debianCommands, _, ["deluser", "--remove-home", username], pre, h.2, rfl,
      Or.inr rfl, hp⟩
  · obtain ⟨pre, hp⟩ := deletion_after_kill ["userdel", "--remove", "-f", username]
      (Or.inl rfl) username env w
    exact ⟨flatcarCommands, _, ["userdel", "--remove", "-f", username], pre, h.2.2, rfl,
      Or.inl rfl, hp⟩

theorem delUser_deletes_once_witness :
    Supported asciiTable "ubuntu:18.04"
    ∧ ∃ t del delArgv pre, getOSCommands asciiTable "ubuntu:18.04" = .ret t
      ∧ t.delUser = some del
      ∧ isDeleteUtility delArgv.head?
      ∧ (del "alice" busyEnv World.initial).2.trace = World.initial.trace ++ pre ++ [delArgv]
      ∧ (∀ c ∈ pre, c = pgrepArgv "alice" ∨ c = pkillArgv "alice")
      ∧ (pre ++ [delArgv]).countP (fun c => decide (isDeleteUtility c.head?)) = 1
      ∧ (del "alice" busyEnv World.initial).1
          = busyEnv (World.initial.trace ++ pre) delArgv
      ∧ (TrimSpace (busyEnv World.initial.trace (pgrepArgv "alice")).out = "" →
          (del "alice" busyEnv World.initial).2.trace
            = World.initial.trace ++ [pgrepArgv "alice", delArgv]) :=
  ⟨by decide,
   delUser_deletes_once asciiTable "ubuntu:18.04" (by decide) "alice" busyEnv World.initial⟩

/-! ## The shape of the table (C6) -/

/-- C6: for every supported identity, matched exactly or by prefix, `getOSCommands` returns
a table in which each of the seven operations is present (not `nil`). -/
theorem getOSCommands_table_complete (tbl : Char → Char) (flavour : String)
    (hs : Supported tbl flavour) :
    ∃ t, getOSCommands tbl flavour = .ret t
      ∧ t.addUser.isSome = true ∧ t.delUser.isSome = true ∧ t.changeShell.isSome = true
      ∧ t.changePassword.isSome = true ∧ t.changeHomeDir.isSome = true
      ∧ t.changeGroups.isSome = true ∧ t.changeComment.isSome = true := by
  rcases supported_cases tbl flavour hs with h | h | h
  · exact ⟨centosCommands, h.2.2, rfl, rfl, rfl, rfl, rfl, rfl, rfl⟩
  · exact ⟨debianCommands, h.2, rfl, rfl, rfl, rfl, rfl, rfl, rfl⟩
  · exact ⟨flatcarCommands, h.2.2, rfl, rfl, rfl, rfl, rfl, rfl, rfl⟩

theorem getOSCommands_table_complete_witness :
    Supported asciiTable "flatcar:9999"
    ∧ ∃ t, getOSCommands asciiTable "flatcar:9999" = .ret t
      ∧ t.addUser.isSome = true ∧ t.delUser.isSome = true ∧ t.changeShell.isSome = true
      ∧ t.changePassword.isSome = true ∧ t.changeHomeDir.isSome = true
      ∧ t.changeGroups.isSome = true ∧ t.changeComment.isSome = true :=
  ⟨by decide, getOSCommands_table_complete asciiTable "flatcar:9999" (by decide)⟩

/-! ## Letter case (C7) -/

/-- C7: `getOSCommands` does not depend on the letter case of the identity: for every
string `s` it gives for `s` what it gives for the lower-case form of `s` (the same table, or
the same fatal error), provided the case table of the library maps the runes outside ASCII
to runes that lower-casing leaves unchanged.  `Debian:11`, `DEBIAN:11` and `debian:11` get
the Debian table and `Flatcar:3510.3` the flatcar table, as `flatcar:3510.3` does. -/
theorem getOSCommands_case_insensitive (tbl : Char → Char)
    (htbl : ∀ c : Char, 128 ≤ c.toNat → toLowerRune tbl (tbl c) = tbl c) (s : String) :
    getOSCommands tbl s = getOSCommands tbl (ToLower tbl s)
    ∧ getOSCommands tbl "Debian:11" = .ret debianCommands
    ∧ getOSCommands tbl "DEBIAN:11" = .ret debianCommands
    ∧ getOSCommands tbl "debian:11" = .ret debianCommands
    ∧ getOSCommands tbl "Flatcar:3510.3" = .ret flatcarCommands
    ∧ getOSCommands tbl "flatcar:3510.3" = .ret flatcarCommands := by
  refine ⟨?_, rfl, rfl, rfl, rfl, rfl⟩
  unfold getOSCommands
  simp only [toLower_idem tbl htbl s]

theorem getOSCommands_case_insensitive_witness :
    (∀ c : Char, 128 ≤ c.toNat → toLowerRune asciiTable (asciiTable c) = asciiTable c)
    ∧ getOSCommands asciiTable "CentOS:7.6" = getOSCommands asciiTable "centos:7.6" :=
  ⟨fun c hc => by
      unfold toLowerRune asciiTable
      rw [if_neg (Nat.not_lt.2 hc)],
   (getOSCommands_case_insensitive asciiTable (fun c hc => by
      unfold toLowerRune asciiTable
      rw [if_neg (Nat.not_lt.2 hc)]) "CentOS:7.6").1⟩

/-! ## Sharing within a family (C8) -/

/-- C8: the tables built for `debian:11` and `ubuntu:18.04` are structurally equivalent (each
of the seven operations runs the same commands with the same argument vectors and returns
the same result in both), and so are the tables of any two of the ten Debian/Ubuntu keys
and of any two of the four CentOS keys: two keys of one family get the same table. -/
theorem getOSCommands_family_equivalent (tbl : Char → Char) (k1 k2 : String)
    (hk : (k1 ∈ debianKeys ∧ k2 ∈ debianKeys) ∨ (k1 ∈ centosKeys ∧ k2 ∈ centosKeys)) :
    (∃ t1 t2, getOSCommands tbl k1 = .ret t1 ∧ getOSCommands tbl k2 = .ret t2
        ∧ t1 = t2 ∧ StructurallyEquivalent t1 t2)
    ∧ (∃ t1 t2, getOSCommands tbl "debian:11" = .ret t1
        ∧ getOSCommands tbl "ubuntu:18.04" = .ret t2 ∧ StructurallyEquivalent t1 t2) := by
  refine ⟨?_, debianCommands, debianCommands, rfl, rfl,
    structurallyEquivalent_refl _ (Or.inr (Or.inl rfl))⟩
  rcases hk with ⟨h1, h2⟩ | ⟨h1, h2⟩
  · have e1 : ToLower tbl k1 ∈ debianKeys := by
      rw [toLower_key tbl k1 ((mem_exactKeys_iff _).2 (Or.inr h1))]; exact h1
    have e2 : ToLower tbl k2 ∈ debianKeys := by
      rw [toLower_key tbl k2 ((mem_exactKeys_iff _).2 (Or.inr h2))]; exact h2
    refine ⟨debianCommands, debianCommands, ?_, ?_, rfl,
      structurallyEquivalent_refl _ (Or.inr (Or.inl rfl))⟩
    · rcases getOSCommands_cases tbl k1 with h | h | h | h
      · exact absurd e1 (centos_not_debian _ h.1)
      · exact h.2
      · exact absurd ((mem_exactKeys_iff _).2 (Or.inr e1)) (not_exact_of_flatcar _ h.1)
      · exact absurd (Or.inl ((mem_exactKeys_iff _).2 (Or.inr e1))) h.1
    · rcases getOSCommands_cases tbl k2 with h | h | h | h
      · exact absurd e2 (centos_not_debian _ h.1)
      · exact h.2
      · exact absurd ((mem_exactKeys_iff _).2 (Or.inr e2)) (not_exact_of_flatcar _ h.1)
      · exact absurd (Or.inl ((mem_exactKeys_iff _).2 (Or.inr e2))) h.1
  · have e1 : ToLower tbl k1 ∈ centosKeys := by
      rw [toLower_key tbl k1 ((mem_exactKeys_iff _).2 (Or.inl h1))]; exact h1
    have e2 : ToLower tbl k2 ∈ centosKeys := by
      rw [toLower_key tbl k2 ((mem_exactKeys_iff _).2 (Or.inl h2))]; exact h2
    refine ⟨centosCommands, centosCommands, ?_, ?_, rfl,
      structurallyEquivalent_refl _ (Or.inl rfl)⟩
    · rcases getOSCommands_cases tbl k1 with h | h | h | h
      · exact h.2
      · exact absurd h.1 (centos_not_debian _ e1)
      · exact absurd ((mem_exactKeys_iff _).2 (Or.inl e1)) (not_exact_of_flatcar _ h.1)
      · exact absurd (Or.inl ((mem_exactKeys_iff _).2 (Or.inl e1))) h.1
    · rcases getOSCommands_cases tbl k2 with h | h | h | h
      · exact h.2
      · exact absurd h.1 (centos_not_debian _ e2)
      · exact absurd ((mem_exactKeys_iff _).2 (Or.inl e2)) (not_exact_of_flatcar _ h.1)
      · exact absurd (Or.inl ((mem_exactKeys_iff _).2 (Or.inl e2))) h.1

theorem getOSCommands_family_equivalent_witness :
    (("debian:11" ∈ debianKeys ∧ "ubuntu:18.04" ∈ debianKeys)
      ∨ ("debian:11" ∈ centosKeys ∧ "ubuntu:18.04" ∈ centosKeys))
    ∧ ∃ t1 t2, getOSCommands asciiTable "debian:11" = .ret t1
        ∧ getOSCommands asciiTable "ubuntu:18.04" = .ret t2
        ∧ t1 = t2 ∧ StructurallyEquivalent t1 t2 :=
  ⟨by decide,
   (getOSCommands_family_equivalent asciiTable "debian:11" "ubuntu:18.04" (by decide)).1⟩

/-! ## Creating an account (C9) -/

/-- C9, as stated, fails: for `centos:7` the one command of `addUser` is
`adduser -m --home-dir /home/alice alice`, which has no flag that disables the password
prompt; and for `debian:11` it is `adduser --home /home/alice --disabled-password alice`,
which has no flag that requests the creation of the home directory. -/
theorem addUser_centos_no_password_flag :
    (∃ t add, getOSCommands asciiTable "centos:7" = .ret t ∧ t.addUser = some add
      ∧ (add "alice" "/home/alice" quietEnv World.initial).2.trace
          = [["adduser", "-m", "--home-dir", "/home/alice", "alice"]]
      ∧ ¬ CreatesAsSpecified "alice" "/home/alice"
          ["adduser", "-m", "--home-dir", "/home/alice", "alice"]
      ∧ ¬ (∃ a ∈ ["adduser", "-m", "--home-dir", "/home/alice", "alice"],
            isNoPasswordPromptFlag a))
    ∧ (∃ t add, getOSCommands asciiTable "debian:11" = .ret t ∧ t.addUser = some add
      ∧ (add "alice" "/home/alice" quietEnv World.initial).2.trace
          = [["adduser", "--home", "/home/alice", "--disabled-password", "alice"]]
      ∧ ¬ (∃ a ∈ ["adduser", "--home", "/home/alice", "--disabled-password", "alice"],
            isCreateHomeFlag a)) :=
  ⟨⟨centosCommands, _, rfl, rfl, by decide, fun h => absurd h.2.2.1 (by decide), by decide⟩,
   ⟨debianCommands, _, rfl, rfl, by decide, by decide⟩⟩

/-- C9, amended: for every supported identity and all user names and home directories,
`addUser` runs exactly one command and returns its result unchanged; the command is
`adduser -m --home-dir home username` for the CentOS keys,
`adduser --home home --disabled-password username` for the Debian/Ubuntu keys and
`useradd -m --home-dir home username` for the `flatcar` prefix: the home flag is
immediately followed by `home` and the user name is last in all three, the flag that
disables the password prompt is only in the Debian/Ubuntu command and the flag `-m` only
in the other two. -/
theorem addUser_command (tbl : Char → Char) (flavour : String)
    (hs : Supported tbl flavour) (username home : String) :
    ∃ t add, getOSCommands tbl flavour = .ret t ∧ t.addUser = some add
      ∧ (ToLower tbl flavour ∈ centosKeys →
          RunsOnly (add username home) ["adduser", "-m", "--home-dir", home, username])
      ∧ (ToLower tbl flavour ∈ debianKeys →
          RunsOnly (add username home)
            ["adduser", "--home", home, "--disabled-password", username])
      ∧ (HasPrefix (ToLower tbl flavour) "flatcar" = true →
          RunsOnly (add username home) ["useradd", "-m", "--home-dir", home, username]) := by
  rcases supported_cases tbl flavour hs with h | h | h
  · exact ⟨centosCommands, _, h.2.2, rfl, fun _ _ _ => rfl, fun hd => absurd hd h.2.1,
      fun hf => absurd ((mem_exactKeys_iff _).2 (Or.inl h.1)) (not_exact_of_flatcar _ hf)⟩
  · exact ⟨debianCommands, _, h.2, rfl, fun hc => absurd h.1 (centos_not_debian _ hc),
      fun _ _ _ => rfl,
      fun hf => absurd ((mem_exactKeys_iff _).2 (Or.inr h.1)) (not_exact_of_flatcar _ hf)⟩
  · exact ⟨flatcarCommands, _, h.2.2, rfl,
      fun hc => absurd ((mem_exactKeys_iff _).2 (Or.inl hc)) (not_exact_of_flatcar _ h.1),
      fun hd => absurd hd h.2.1, fun _ _ _ => rfl⟩

theorem addUser_command_witness :
    Supported asciiTable "Ubuntu:16.04"
    ∧ ∃ t add, getOSCommands asciiTable "Ubuntu:16.04" = .ret t ∧ t.addUser = some add
      ∧ (ToLower asciiTable "Ubuntu:16.04" ∈ centosKeys →
          RunsOnly (add "bob" "/srv/bob") ["adduser", "-m", "--home-dir", "/srv/bob", "bob"])
      ∧ (ToLower asciiTable "Ubuntu:16.04" ∈ debianKeys →
          RunsOnly (add "bob" "/srv/bob")
            ["adduser", "--home", "/srv/bob", "--disabled-password", "bob"])
      ∧ (HasPrefix (ToLower asciiTable "Ubuntu:16.04") "flatcar" = true →
          RunsOnly (add "bob" "/srv/bob")
            ["useradd", "-m", "--home-dir", "/srv/bob", "bob"]) :=
  ⟨by decide, addUser_command asciiTable "Ubuntu:16.04" (by decide) "bob" "/srv/bob"⟩

/-! ## Modifying an account (C10) -/

/-- C10: for every supported identity, of any of the three families, and all argument
strings, each modify operation runs exactly one command and returns its result unchanged:
`changeShell u s` runs `usermod --shell s u`, `changePassword u p` runs
`usermod --password p u`, `changeHomeDir u h` runs `usermod --move-home --home h u`,
`changeGroups u g` runs `usermod --groups g u` and `changeComment u c` runs
`usermod --comment c u`; each string of the caller is one element of the argument vector,
unchanged. -/
theorem modify_commands (tbl : Char → Char) (flavour : String)
    (hs : Supported tbl flavour) :
    ∃ t sh pw hd gr cm, getOSCommands tbl flavour = .ret t
      ∧ t.changeShell = some sh ∧ t.changePassword = some pw ∧ t.changeHomeDir = some hd
      ∧ t.changeGroups = some gr ∧ t.changeComment = some cm
      ∧ ∀ u x : String,
          RunsOnly (sh u x) ["usermod", "--shell", x, u]
          ∧ RunsOnly (pw u x) ["usermod", "--password", x, u]
          ∧ RunsOnly (hd u x) ["usermod", "--move-home", "--home", x, u]
          ∧ RunsOnly (gr u x) ["usermod", "--groups", x, u]
          ∧ RunsOnly (cm u x) ["usermod", "--comment", x, u] := by
  rcases supported_cases tbl flavour hs with h | h | h
  · exact ⟨centosCommands, _, _, _, _, _, h.2.2, rfl, rfl, rfl, rfl, rfl,
      fun _ _ => ⟨fun _ _ => rfl, fun _ _ => rfl, fun _ _ => rfl, fun _ _ => rfl,
        fun _ _ => rfl⟩⟩
  · exact ⟨debianCommands, _, _, _, _, _, h.2, rfl, rfl, rfl, rfl, rfl,
      fun _ _ => ⟨fun _ _ => rfl, fun _ _ => rfl, fun _ _ => rfl, fun _ _ => rfl,
        fun _ _ => rfl⟩⟩
  · exact ⟨flatcarCommands, _, _, _, _, _, h.2.2, rfl, rfl, rfl, rfl, rfl,
      fun _ _ => ⟨fun _ _ => rfl, fun _ _ => rfl, fun _ _ => rfl, fun _ _ => rfl,
        fun _ _ => rfl⟩⟩

theorem modify_commands_witness :
    Supported asciiTable "centos:7.4"
    ∧ ∃ t sh pw hd gr cm, getOSCommands asciiTable "centos:7.4" = .ret t
      ∧ t.changeShell = some sh ∧ t.changePassword = some pw ∧ t.changeHomeDir = some hd
      ∧ t.changeGroups = some gr ∧ t.changeComment = some cm
      ∧ ∀ u x : String,
          RunsOnly (sh u x) ["usermod", "--shell", x, u]
          ∧ RunsOnly (pw u x) ["usermod", "--password", x, u]
          ∧ RunsOnly (hd u x) ["usermod", "--move-home", "--home", x, u]
          ∧ RunsOnly (gr u x) ["usermod", "--groups", x, u]
          ∧ RunsOnly (cm u x) ["usermod", "--comment", x, u] :=
  ⟨by decide, modify_commands asciiTable "centos:7.4" (by decide)⟩

/-! ## Running a hook (C11, C14) -/

/-- C11: for every command-backed executor with bound path `p`, every event tag `e` and
every list of messages, the empty list included, `Exec` runs exactly one command, the
executable `p`, with the arguments `e` then the messages in their order, one more argument
than there are messages; the interface method does the same. -/
theorem hookCommand_exec_argv (h : hookCommandExecutor) (evt : hookEvent)
    (msgs : List String) (env : Env) (w : World) :
    (h.Exec evt msgs env w).trace = w.trace ++ [h.path :: (evt :: msgs)]
    ∧ commandsSince w (h.Exec evt msgs env w) = [h.path :: (evt :: msgs)]
    ∧ (evt :: msgs).head? = some evt
    ∧ (evt :: msgs).tail = msgs
    ∧ (evt :: msgs).length = msgs.length + 1
    ∧ (h.Exec evt [] env w).trace = w.trace ++ [[h.path, evt]]
    ∧ (hookExecutor.command h).Exec evt msgs env w = h.Exec evt msgs env w := by
  have key : ∀ ms : List String,
      (h.Exec evt ms env w).trace = w.trace ++ [h.path :: (evt :: ms)] := by
    intro ms
    unfold hookCommandExecutor.Exec Run logPrintf
    simp only [List.nil_append, List.singleton_append]
    split <;> rfl
  refine ⟨key msgs, ?_, rfl, rfl, rfl, key [], rfl⟩
  unfold commandsSince
  rw [key msgs]
  exact List.drop_left _ _

/-- C14: for every command-backed executor, event, messages and every answer of the
environment to the hook command, `Exec` ends normally and gives back nothing but the new
world: the hook command is added to the trace, and the log gains exactly one warning when
the command ended in an error and nothing when it did not. -/
theorem hookCommand_exec_swallows_failure (h : hookCommandExecutor) (evt : hookEvent)
    (msgs : List String) (env : Env) (w : World) :
    h.Exec evt msgs env w
      = { trace := w.trace ++ [h.path :: (evt :: msgs)],
          logs := w.logs ++
            (match (env w.trace (h.path :: (evt :: msgs))).err with
             | some err => ["Warn: command " ++ h.path ++ " execution failure: " ++ err]
             | none => []) }
    ∧ (h.Exec evt msgs env w).logs.length
        = w.logs.length
          + (if (env w.trace (h.path :: (evt :: msgs))).err = none then 0 else 1) := by
  have key : h.Exec evt msgs env w
      = { trace := w.trace ++ [h.path :: (evt :: msgs)],
          logs := w.logs ++
            (match (env w.trace (h.path :: (evt :: msgs))).err with
             | some err => ["Warn: command " ++ h.path ++ " execution failure: " ++ err]
             | none => []) } := by
    unfold hookCommandExecutor.Exec Run logPrintf
    simp only [List.nil_append, List.singleton_append]
    rcases he : (env w.trace (h.path :: evt :: msgs)).err with _ | e <;> simp [he]
  refine ⟨key, ?_⟩
  rw [key]
  rcases he : (env w.trace (h.path :: evt :: msgs)).err with _ | e <;> simp [he]

/-! ## Resolving the hook command (C12, C13) -/

/-- C12: `getHookExecutor ""` gives the no-op executor and no error and looks nothing up
on the search path, whatever the search path is; and the `Exec` of the no-op executor
leaves the world as it is, for every event and all messages: no command is run and nothing
is logged. -/
theorem getHookExecutor_empty_noop (lookPath : LookPath) (evt : hookEvent)
    (msgs : List String) (env : Env) (w : World) :
    getHookExecutor lookPath ""
      = { executor := some (.noop ⟨⟩), err := none, lookups := [] }
    ∧ (hookExecutor.noop ⟨⟩).Exec evt msgs env w = w
    ∧ commandsSince w ((hookExecutor.noop ⟨⟩).Exec evt msgs env w) = [] := by
  refine ⟨rfl, rfl, ?_⟩
  unfold commandsSince
  simp [hookExecutor.Exec, noopHookExecutor.Exec]

/-- C13: for every non-empty command name, `getHookExecutor` looks the name up once and
gives an error exactly when the lookup does; then it gives no executor and the error of
the lookup, and otherwise no error and the command-backed executor bound to the path
that the lookup found. -/
theorem getHookExecutor_lookup (lookPath : LookPath) (cmd : String) (hcmd : cmd ≠ "") :
    ((getHookExecutor lookPath cmd).err ≠ none ↔ (lookPath cmd).2 ≠ none)
    ∧ (getHookExecutor lookPath cmd).lookups = [cmd]
    ∧ (∀ e, (lookPath cmd).2 = some e →
        getHookExecutor lookPath cmd
          = { executor := none, err := some e, lookups := [cmd] })
    ∧ ((lookPath cmd).2 = none →
        getHookExecutor lookPath cmd
          = { executor := some (.command ⟨(lookPath cmd).1⟩), err := none,
              lookups := [cmd] }) := by
  unfold getHookExecutor
  rw [if_pos hcmd]
  rcases hl : (lookPath cmd).2 with _ | e <;> simp [hl]

theorem getHookExecutor_lookup_witness :
    "nonexistent-hook-xyz" ≠ ""
    ∧ (getHookExecutor emptySearchPath "nonexistent-hook-xyz").executor = none
    ∧ (getHookExecutor emptySearchPath "nonexistent-hook-xyz").err
        = some "exec: \"nonexistent-hook-xyz\": executable file not found in $PATH"
    ∧ getHookExecutor notifySearchPath "notify"
        = { executor := some (.command ⟨"/usr/local/bin/notify"⟩), err := none,
            lookups := ["notify"] } :=
  ⟨by decide,
   congrArg HookResolution.executor
     ((getHookExecutor_lookup emptySearchPath "nonexistent-hook-xyz" (by decide)).2.2.1
        _ rfl),
   (congrArg HookResolution.err
     ((getHookExecutor_lookup emptySearchPath "nonexistent-hook-xyz" (by decide)).2.2.1
        _ rfl)).trans (by decide),
   (getHookExecutor_lookup notifySearchPath "notify" (by decide)).2.2.2 rfl⟩

/-! ## The event tags (C15) -/

/-- C15: the eight event constants have the string values `WJSON`, `EGITOPS`, `EUSERADD`,
`EUSERDEL`, `EUSERMOD`, `IUSERADD`, `IUSERDEL` and `IUSERMOD` (the JSON warning, the git
error, the errors and the successes of adding, deleting and modifying a user), there are
eight of them, and the values are pairwise distinct. -/
theorem hookEvents_values_distinct :
    evtWarnJSON = "WJSON" ∧ evtErrGitOps = "EGITOPS"
    ∧ evtErrUserAdd = "EUSERADD" ∧ evtErrUserDel = "EUSERDEL" ∧ evtErrUserMod = "EUSERMOD"
    ∧ evtUserAdd = "IUSERADD" ∧ evtUserDel = "IUSERDEL" ∧ evtUserMod = "IUSERMOD"
    ∧ hookEvents
        = [evtWarnJSON, evtErrGitOps, evtErrUserAdd, evtErrUserDel, evtErrUserMod,
           evtUserAdd, evtUserDel, evtUserMod]
    ∧ hookEvents.length = 8
    ∧ hookEvents.Nodup := by
  refine ⟨rfl, rfl, rfl, rfl, rfl, rfl, rfl, rfl, rfl, rfl, ?_⟩
  decide

/-! ## The kill before the deletion (C16) -/

/-- The commands of a deletion that follows the lookup-and-kill block. -/
theorem kill_then_delete_commands (delArgv : List String)
    (hdel : isDeleteUtility delArgv.head?) (username : String) (env : Env) (w : World) :
    commandsSince w (CombinedOutput delArgv env (killProcesses username env w)).2
        = pgrepArgv username ::
            ((if TrimSpace (env w.trace (pgrepArgv username)).out ≠ "" then
                [pkillArgv username] else []) ++ [delArgv])
    ∧ (pkillArgv username
          ∈ commandsSince w (CombinedOutput delArgv env (killProcesses username env w)).2
        ↔ TrimSpace (env w.trace (pgrepArgv username)).out ≠ "")
    ∧ (commandsSince w (CombinedOutput delArgv env (killProcesses username env w)).2).count
          (pkillArgv username) ≤ 1 := by
  have hcmds : commandsSince w (CombinedOutput delArgv env (killProcesses username env w)).2
        = pgrepArgv username ::
            ((if TrimSpace (env w.trace (pgrepArgv username)).out ≠ "" then
                [pkillArgv username] else []) ++ [delArgv]) := by
    unfold commandsSince
    simp only [CombinedOutput, killProcesses_trace, List.append_assoc]
    rw [List.drop_left]
    rfl
  have h1 : pkillArgv username ≠ pgrepArgv username := by
    simp [pkillArgv, pgrepArgv]
  have h2 : pkillArgv username ≠ delArgv := by
    intro heq
    rw [← heq] at hdel
    simp [pkillArgv, isDeleteUtility] at hdel
  have h1b : (pgrepArgv username == pkillArgv username) = false := by
    rw [beq_eq_false_iff_ne]
    exact fun h => h1 h.symm
  have h2b : (delArgv == pkillArgv username) = false := by
    rw [beq_eq_false_iff_ne]
    exact fun h => h2 h.symm
  refine ⟨hcmds, ?_, ?_⟩
  · rw [hcmds]
    by_cases hb : TrimSpace (env w.trace (pgrepArgv username)).out = ""
    · simp [hb, h1, h2]
    · simp [hb]
  · rw [hcmds]
    by_cases hb : TrimSpace (env w.trace (pgrepArgv username)).out = ""
    · simp [hb, List.count_cons, h1b, h2b]
    · simp [hb, List.count_cons, h1b, h2b]

theorem dropWhile_all_iff (p : Char → Bool) (l : List Char) :
    (∀ x ∈ l.dropWhile p, p x = true) ↔ ∀ x ∈ l, p x = true := by
  constructor
  · intro h
    have hnil : l.dropWhile p = [] := by
      have hh := List.head?_dropWhile_not p l
      cases hd : l.dropWhile p with
      | nil => rfl
      | cons a t =>
        rw [hd] at hh h
        simp only [List.head?_cons] at hh
        have := h a (List.mem_cons_self _ _)
        rw [hh] at this
        cases this
    exact List.dropWhile_eq_nil_iff.1 hnil
  · intro h x hx
    exact h x ((List.dropWhile_sublist p).subset hx)

/-- Trimming leaves nothing exactly when every rune of the text is white space. -/
theorem trimSpace_eq_empty_iff (s : String) :
    TrimSpace s = "" ↔ ∀ c ∈ s.data, isSpace c = true := by
  unfold TrimSpace
  rw [String.ext_iff]
  show ((s.data.dropWhile isSpace).reverse.dropWhile isSpace).reverse = [] ↔ _
  rw [List.reverse_eq_nil_iff, List.dropWhile_eq_nil_iff]
  simp only [List.mem_reverse]
  exact dropWhile_all_iff isSpace s.data

theorem trimSpace_ne_empty_iff (s : String) :
    TrimSpace s ≠ "" ↔ ∃ c ∈ s.data, isSpace c = false := by
  rw [Ne, trimSpace_eq_empty_iff]
  constructor
  · intro h
    by_contra hno
    apply h
    intro c hc
    cases hsp : isSpace c
    · exact absurd ⟨c, hc, hsp⟩ hno
    · rfl
  · rintro ⟨c, hc, hsp⟩ hall
    rw [hall c hc] at hsp
    cases hsp

/-- The commands of the deletion, in terms of the runes of the lookup output. -/
theorem kill_iff_nonblank (delArgv : List String)
    (hdel : isDeleteUtility delArgv.head?) (username : String) (env : Env) (w : World) :
    (pkillArgv username
          ∈ commandsSince w (CombinedOutput delArgv env (killProcesses username env w)).2
        ↔ ∃ c ∈ (env w.trace (pgrepArgv username)).out.data, isSpace c = false)
    ∧ ((∀ c ∈ (env w.trace (pgrepArgv username)).out.data, isSpace c = true) →
        commandsSince w (CombinedOutput delArgv env (killProcesses username env w)).2
          = [pgrepArgv username, delArgv])
    ∧ ((∃ c ∈ (env w.trace (pgrepArgv username)).out.data, isSpace c = false) →
        commandsSince w (CombinedOutput delArgv env (killProcesses username env w)).2
          = [pgrepArgv username, pkillArgv username, delArgv]) := by
  obtain ⟨hcmds, hmem, _⟩ := kill_then_delete_commands delArgv hdel username env w
  refine ⟨?_, ?_, ?_⟩
  · rw [hmem, trimSpace_ne_empty_iff]
  · intro hall
    rw [hcmds, if_neg (not_not.2 ((trimSpace_eq_empty_iff _).2 hall))]
    rfl
  · intro hex
    rw [hcmds, if_pos ((trimSpace_ne_empty_iff _).2 hex)]
    rfl

/-- C16, as stated, fails: for `debian:11` and the user `alice`, when the lookup finds no
process and only prints `pgrep: invalid user name: alice`, its output names no process ID
and yet `delUser` sends the kill; the kill follows the text of the output, not what was
found. -/
theorem delUser_kills_without_process_ids :
    ∃ t del, getOSCommands asciiTable "debian:11" = .ret t ∧ t.delUser = some del
      ∧ (brokenLookupEnv World.initial.trace ["pgrep", "-l", "-u", "alice"]).out
          = "pgrep: invalid user name: alice\n"
      ∧ listsProcessIDs
          (brokenLookupEnv World.initial.trace ["pgrep", "-l", "-u", "alice"]).out = false
      ∧ listsProcessIDs "4242 sleep\n" = true
      ∧ commandsSince World.initial (del "alice" brokenLookupEnv World.initial).2
          = [["pgrep", "-l", "-u", "alice"],
             ["pkill", "--signal", "9", "-e", "-u", "alice"],
             ["deluser", "--remove-home", "alice"]]
      ∧ ["pkill", "--signal", "9", "-e", "-u", "alice"]
          ∈ commandsSince World.initial (del "alice" brokenLookupEnv World.initial).2 :=
  ⟨debianCommands, _, rfl, rfl, by decide, by decide, by decide, by decide, by decide⟩

/-- C16, amended: for every supported identity, user name, environment and starting world,
the commands of `delUser` are the lookup `pgrep -l -u username` first, then the kill
`pkill --signal 9 -e -u username` if and only if the combined output of the lookup is not
empty after trimming white space, that is if and only if it has a rune that is not white
space (whether or not it names a process), then the deletion; after an empty output or one
of white space only no kill is run, and the kill is never run more than once.  Trimming
removes the white space at both ends and nothing else. -/
theorem delUser_kills_iff_output_nonblank (tbl : Char → Char) (flavour : String)
    (hs : Supported tbl flavour) (username : String) (env : Env) (w : World) :
    (∃ t del delArgv, getOSCommands tbl flavour = .ret t ∧ t.delUser = some del
      ∧ isDeleteUtility delArgv.head?
      ∧ commandsSince w (del username env w).2
          = ["pgrep", "-l", "-u", username] ::
              ((if TrimSpace (env w.trace ["pgrep", "-l", "-u", username]).out ≠ "" then
                  [["pkill", "--signal", "9", "-e", "-u", username]] else []) ++ [delArgv])
      ∧ (["pkill", "--signal", "9", "-e", "-u", username]
            ∈ commandsSince w (del username env w).2
          ↔ TrimSpace (env w.trace ["pgrep", "-l", "-u", username]).out ≠ "")
      ∧ (["pkill", "--signal", "9", "-e", "-u", username]
            ∈ commandsSince w (del username env w).2
          ↔ ∃ c ∈ (env w.trace ["pgrep", "-l", "-u", username]).out.data, isSpace c = false)
      ∧ ((∀ c ∈ (env w.trace ["pgrep", "-l", "-u", username]).out.data, isSpace c = true) →
          commandsSince w (del username env w).2
            = [["pgrep", "-l", "-u", username], delArgv])
      ∧ ((∃ c ∈ (env w.trace ["pgrep", "-l", "-u", username]).out.data, isSpace c = false) →
          commandsSince w (del username env w).2
            = [["pgrep", "-l", "-u", username],
               ["pkill", "--signal", "9", "-e", "-u", username], delArgv])
      ∧ (commandsSince w (del username env w).2).count
            ["pkill", "--signal", "9", "-e", "-u", username] ≤ 1)
    ∧ TrimSpace "" = ""
    ∧ TrimSpace "\n \t\r\n" = ""
    ∧ TrimSpace "\n 4242 sleep\n" = "4242 sleep"
    ∧ (∃ del, centosCommands.delUser = some del
        ∧ commandsSince World.initial (del "alice" quietEnv World.initial).2
            = [["pgrep", "-l", "-u", "alice"], ["userdel", "--remove", "-f", "alice"]]
        ∧ commandsSince World.initial (del "alice" blankLookupEnv World.initial).2
            = [["pgrep", "-l", "-u", "alice"], ["userdel", "--remove", "-f", "alice"]]
        ∧ commandsSince World.initial (del "alice" busyEnv World.initial).2
            = [["pgrep", "-l", "-u", "alice"],
               ["pkill", "--signal", "9", "-e", "-u", "alice"],
               ["userdel", "--remove", "-f", "alice"]])
    ∧ (∃ del, debianCommands.delUser = some del
        ∧ commandsSince World.initial (del "alice" blankLookupEnv World.initial).2
            = [["pgrep", "-l", "-u", "alice"], ["deluser", "--remove-home", "alice"]]
        ∧ commandsSince World.initial (del "alice" busyEnv World.initial).2
            = [["pgrep", "-l", "-u", "alice"],
               ["pkill", "--signal", "9", "-e", "-u", "alice"],
               ["deluser", "--remove-home", "alice"]])
    ∧ (∃ del, flatcarCommands.delUser = some del
        ∧ commandsSince World.initial (del "alice" blankLookupEnv World.initial).2
            = [["pgrep", "-l", "-u", "alice"], ["userdel", "--remove", "-f", "alice"]]
        ∧ commandsSince World.initial (del "alice" busyEnv World.initial).2
            = [["pgrep", "-l", "-u", "alice"],
               ["pkill", "--signal", "9", "-e", "-u", "alice"],
               ["userdel", "--remove", "-f", "alice"]]) := by
  refine ⟨?_, by decide, by decide, by decide,
    ⟨_, rfl, by decide, by decide, by decide⟩, ⟨_, rfl, by decide, by decide⟩,
    ⟨_, rfl, by decide, by decide⟩⟩
  rcases supported_cases tbl flavour hs with h | h | h
  · obtain ⟨k1, k2, k3⟩ := kill_then_delete_commands
      ["userdel", "--remove", "-f", username] (Or.inl rfl) username env w
    obtain ⟨n1, n2, n3⟩ := kill_iff_nonblank
      ["userdel", "--remove", "-f", username] (Or.inl rfl) username env w
    exact ⟨centosCommands, _, ["userdel", "--remove", "-f", username], h.2.2, rfl,
      Or.inl rfl, k1, k2, n1, n2, n3, k3⟩
  · obtain ⟨k1, k2, k3⟩ := kill_then_delete_commands
      ["deluser", "--remove-home", username] (Or.inr rfl) username env w
    obtain ⟨n1, n2, n3⟩ := kill_iff_nonblank
      ["deluser", "--remove-home", username] (Or.inr rfl) username env w
    exact ⟨debianCommands, _, ["deluser", "--remove-home", username], h.2, rfl,
      Or.inr rfl, k1, k2, n1, n2, n3, k3⟩
  · obtain ⟨k1, k2, k3⟩ := kill_then_delete_commands
      ["userdel", "--remove", "-f", username] (Or.inl rfl) username env w
    obtain ⟨n1, n2, n3⟩ := kill_iff_nonblank
      ["userdel", "--remove", "-f", username] (Or.inl rfl) username env w
    exact ⟨flatcarCommands, _, ["userdel", "--remove", "-f", username], h.2.2, rfl,
      Or.inl rfl, k1, k2, n1, n2, n3, k3⟩

theorem delUser_kills_iff_output_nonblank_witness :
    Supported asciiTable "debian:12"
    ∧ (∀ c ∈ (blankLookupEnv World.initial.trace ["pgrep", "-l", "-u", "alice"]).out.data,
        isSpace c = true)
    ∧ ∃ t del delArgv, getOSCommands asciiTable "debian:12" = .ret t ∧ t.delUser = some del
      ∧ isDeleteUtility delArgv.head?
      ∧ commandsSince World.initial (del "alice" blankLookupEnv World.initial).2
          = [["pgrep", "-l", "-u", "alice"], delArgv]
      ∧ ¬ (["pkill", "--signal", "9", "-e", "-u", "alice"]
            ∈ commandsSince World.initial (del "alice" blankLookupEnv World.initial).2) :=
  ⟨by decide, by decide, by
    obtain ⟨t, del, delArgv, h1, h2, h3, _, _, h6, h7, _, _⟩ :=
      (delUser_kills_iff_output_nonblank asciiTable "debian:12" (by decide) "alice"
        blankLookupEnv World.initial).1
    refine ⟨t, del, delArgv, h1, h2, h3, h7 (by decide), ?_⟩
    rw [h6]
    decide⟩

/-! ## Lines without `=` (C17) -/

theorem lineStep_bare_key (line : String) (h : line = "ID" ∨ line = "VERSION_ID")
    (v : String × String) : lineStep line v = .panic := by
  rcases h with h | h
  · subst h
    have hs : Split "ID" '=' = ["ID"] := by decide
    unfold lineStep
    simp [hs, index, Outcome.bind]
  · subst h
    have hs : Split "VERSION_ID" '=' = ["VERSION_ID"] := by decide
    unfold lineStep
    simp [hs, index, Outcome.bind]

theorem lineLoop_panic (lines : List String)
    (h : ∃ l ∈ lines, l = "ID" ∨ l = "VERSION_ID") (v : String × String) :
    lineLoop lines v = .panic := by
  induction lines generalizing v with
  | nil =>
    obtain ⟨l, hl, _⟩ := h
    cases hl
  | cons a ls ih =>
    unfold lineLoop
    by_cases ha : a = "ID" ∨ a = "VERSION_ID"
    · rw [lineStep_bare_key a ha v]
      rfl
    · have hgood : a ≠ "ID" ∧ a ≠ "VERSION_ID" := by
        constructor
        · exact fun e => ha (Or.inl e)
        · exact fun e => ha (Or.inr e)
      rw [lineStep_eq a v hgood]
      simp only [Outcome.bind]
      apply ih
      obtain ⟨l, hl, hbad⟩ := h
      rcases List.mem_cons.1 hl with e | e
      · subst e
        exact absurd hbad ha
      · exact ⟨l, e, hbad⟩

/-- C17: `getOS` is not total on the files it can read: it panics, indexing `bits[1]` past
the end of the split line, exactly when some line of the file is `ID` or `VERSION_ID`
without any `=` (the guard `len(bits) > 0` always holds); for instance on the file whose
only line is `ID`.  Empty lines and other lines without `=` do no harm. -/
theorem getOS_panics_on_bare_key (content : String) :
    (getOS (.ok content) = .panic
        ↔ ∃ l ∈ Split content '\n', l = "ID" ∨ l = "VERSION_ID")
    ∧ getOS (.ok "ID\n") = .panic
    ∧ getOS (.ok "ID=debian\nVERSION_ID\n") = .panic
    ∧ Split "ID" '=' = ["ID"]
    ∧ (0 < (Split "ID" '=').length ∧ index (Split "ID" '=') 1 = .panic)
    ∧ getOS (.ok "\n\nNAME\n") = .ret "" := by
  refine ⟨?_, by decide, by decide, by decide, by decide, by decide⟩
  constructor
  · intro hp
    by_contra hno
    have hgood : ∀ l ∈ Split content '\n', l ≠ "ID" ∧ l ≠ "VERSION_ID" := by
      intro l hl
      constructor
      · exact fun e => hno ⟨l, hl, Or.inl e⟩
      · exact fun e => hno ⟨l, hl, Or.inr e⟩
    unfold getOS at hp
    simp only [lineLoop_eq _ _ hgood, Outcome.bind] at hp
    split_ifs at hp
  · intro hbad
    unfold getOS
    simp only [lineLoop_panic _ hbad, Outcome.bind]

/-! ## The prefix stage (C18) -/

/-- C18: every identity whose lower-case form starts with `flatcar` gets the flatcar
table, whose `addUser` runs `useradd -m --home-dir home username` and whose `delUser`
ends with `userdel --remove -f username`; the second test, for the prefix
`flatcar:3510.3`, never changes the outcome of the first; and no exact key starts with
`flatcar`, so an identity matched by prefix is never an exact key. -/
theorem flatcar_prefix_decides (tbl : Char → Char) (s f : String) :
    (HasPrefix (ToLower tbl s) "flatcar" = true →
        getOSCommands tbl s = .ret flatcarCommands ∧ ToLower tbl s ∉ exactKeys)
    ∧ (HasPrefix f "flatcar" || HasPrefix f "flatcar:3510.3") = HasPrefix f "flatcar"
    ∧ (exactKeys.all fun k => !HasPrefix k "flatcar") = true
    ∧ getOSCommands tbl "flatcar" = .ret flatcarCommands
    ∧ getOSCommands tbl "flatcar:3510.3.1" = .ret flatcarCommands
    ∧ getOSCommands tbl "flatcar:9999" = .ret flatcarCommands
    ∧ (∃ add del, flatcarCommands.addUser = some add ∧ flatcarCommands.delUser = some del
        ∧ (∀ u h : String, RunsOnly (add u h) ["useradd", "-m", "--home-dir", h, u])
        ∧ ∀ (u : String) (env : Env) (w : World),
            (del u env w).2.trace.getLast? = some ["userdel", "--remove", "-f", u]) := by
  refine ⟨?_, ?_, by decide, rfl, rfl, rfl, ?_⟩
  · intro hp
    refine ⟨?_, not_exact_of_flatcar _ hp⟩
    rcases getOSCommands_cases tbl s with h | h | h | h
    · exact absurd ((mem_exactKeys_iff _).2 (Or.inl h.1)) (not_exact_of_flatcar _ hp)
    · exact absurd ((mem_exactKeys_iff _).2 (Or.inr h.1)) (not_exact_of_flatcar _ hp)
    · exact h.2
    · exact absurd (Or.inr hp) h.1
  · cases h1 : HasPrefix f "flatcar"
    · cases h2 : HasPrefix f "flatcar:3510.3"
      · rfl
      · rw [hasPrefix_long_short f h2] at h1
        cases h1
    · rfl
  · refine ⟨_, _, rfl, rfl, fun _ _ _ _ => rfl, fun u env w => ?_⟩
    simp only [CombinedOutput]
    exact List.getLast?_concat _

theorem flatcar_prefix_decides_witness :
    HasPrefix (ToLower asciiTable "Flatcar:3510.3.1") "flatcar" = true
    ∧ getOSCommands asciiTable "Flatcar:3510.3.1" = .ret flatcarCommands
    ∧ ToLower asciiTable "Flatcar:3510.3.1" ∉ exactKeys :=
  ⟨by decide,
   ((flatcar_prefix_decides asciiTable "Flatcar:3510.3.1" "").1 (by decide)).1,
   ((flatcar_prefix_decides asciiTable "Flatcar:3510.3.1" "").1 (by decide)).2⟩

end Userd
